import Mathlib

/-!
Verification development for the knowledge-base front-end
(streaming query consumer, formatting engine, visualization selector,
pagination controller).

The JavaScript sources are shallowly embedded: JS values flowing through the
stream pipeline are modelled by `JVal` (JSON values plus `undefined`), JS
numbers by exact rationals (`Rat`; every numeric input exercised below is
exactly representable, so no double-rounding behaviour is observable),
JS strings by Lean `String` (code-point based; all inputs exercised are in
the BMP, where JS UTF-16 lengths coincide), and the DOM side effects of the
stream loop by explicit state records.
-/

namespace KB

/-- Model of a JavaScript value as seen by the stream consumer: the JSON
grammar plus `undefined` (the result of reading an absent property). -/
inductive JVal where
  | jnull
  | jundef
  | jbool (b : Bool)
  | jnum (q : Rat)
  | jstr (s : String)
  | jarr (elems : List JVal)
  | jobj (fields : List (String × JVal))

/-- JavaScript truthiness: `null`, `undefined`, `false`, `0` and `""` are
falsy; every object and array is truthy. -/
def truthy : JVal → Bool
  | JVal.jnull => false
  | JVal.jundef => false
  | JVal.jbool b => b
  | JVal.jnum q => if q = 0 then false else true
  | JVal.jstr s => !s.isEmpty
  | JVal.jarr _ => true
  | JVal.jobj _ => true

/-- Property lookup in an object literal, last binding wins (as in the result
of `JSON.parse` with duplicate keys). -/
def lookupLastField (k : String) : List (String × JVal) → Option JVal
  | [] => none
  | (k', v) :: rest =>
    match lookupLastField k rest with
    | some r => some r
    | none => if k' = k then some v else none

/-- Model of `v[k]`: property access on an object; on any non-object it
yields `undefined` (access on `null`/`undefined` itself, which throws in JS,
is handled explicitly at the use sites). -/
def jsField (v : JVal) (k : String) : JVal :=
  match v with
  | JVal.jobj fs => (lookupLastField k fs).getD JVal.jundef
  | _ => JVal.jundef

/-- Whether `v.type === t` for a string literal `t` (strict equality, so a
non-string `type` field never matches). -/
def typeIs (v : JVal) (t : String) : Bool :=
  match jsField v "type" with
  | JVal.jstr s => s = t
  | _ => false

/-- Left-pad a digit string with zeros to the given width. -/
def padZeros (w : Nat) (s : String) : String :=
  String.mk (List.replicate (w - s.length) '0') ++ s

/-- Drop trailing `'0'` characters (used for `maximumFractionDigits`). -/
def trimTrailingZeros (s : String) : String :=
  String.mk (s.data.reverse.dropWhile (fun c => c = '0')).reverse

/-- Group a reversed digit list into pairs (for Indian digit grouping). -/
def chunksRev2 : List Char → List (List Char)
  | [] => []
  | [a] => [[a]]
  | a :: b :: rest => [a, b] :: chunksRev2 rest

/-- Group a reversed digit list into triples (for Western digit grouping). -/
def chunksRev3 : List Char → List (List Char)
  | [] => []
  | [a] => [[a]]
  | [a, b] => [[a, b]]
  | a :: b :: c :: rest => [a, b, c] :: chunksRev3 rest

/-- Indian digit grouping of a natural number, as produced by
`toLocaleString('en-IN')`: last three digits, then groups of two. -/
def groupIndian (n : Nat) : String :=
  let ds := (toString n).data
  if ds.length ≤ 3 then String.mk ds
  else
    let r := ds.reverse
    let last3 := (r.take 3).reverse
    let grps := ((chunksRev2 (r.drop 3)).map List.reverse).reverse
    String.intercalate "," (grps.map String.mk) ++ "," ++ String.mk last3

/-- Western digit grouping of a natural number (groups of three), as produced
by `toLocaleString()` under the default host locale. -/
def groupWestern (n : Nat) : String :=
  let ds := (toString n).data
  if ds.length ≤ 3 then String.mk ds
  else
    let r := ds.reverse
    let grps := ((chunksRev3 r).map List.reverse).reverse
    String.intercalate "," (grps.map String.mk)

/-- Core of `Number.prototype.toFixed` on a non-negative rational: the
closest integer numerator at the given precision, ties resolved upward. -/
def jsToFixedNN (f : Nat) (x : Rat) : String :=
  let n : Nat := (x * ((10 : Rat) ^ f) + 1 / 2).floor.toNat
  let ip := n / 10 ^ f
  let fp := n % 10 ^ f
  if f = 0 then toString ip else toString ip ++ "." ++ padZeros f (toString fp)

/-- Model of `x.toFixed(f)`: the sign is split off first, then the
non-negative part is rounded to `f` digits (ties toward the larger value). -/
def jsToFixed (f : Nat) (x : Rat) : String :=
  if x < 0 then "-" ++ jsToFixedNN f (-x) else jsToFixedNN f x

/-- Model of `x.toLocaleString('en-IN', { maximumFractionDigits: f })`:
round half away from zero at `f` digits, trim trailing fraction zeros,
Indian grouping on the integer part. -/
def jsLocaleIN (f : Nat) (x : Rat) : String :=
  let neg := x < 0
  let a := if neg then -x else x
  let scaled : Nat := (a * ((10 : Rat) ^ f) + 1 / 2).floor.toNat
  let ip := scaled / 10 ^ f
  let fracStr := trimTrailingZeros (padZeros f (toString (scaled % 10 ^ f)))
  (if neg then "-" else "") ++ groupIndian ip ++
    (if fracStr = "" then "" else "." ++ fracStr)

/-- Model of `x.toLocaleString(undefined, { maximumFractionDigits: f })`
under a Western default locale (used only by `formatValue`). -/
def jsLocaleWestern (f : Nat) (x : Rat) : String :=
  let neg := x < 0
  let a := if neg then -x else x
  let scaled : Nat := (a * ((10 : Rat) ^ f) + 1 / 2).floor.toNat
  let ip := scaled / 10 ^ f
  let fracStr := trimTrailingZeros (padZeros f (toString (scaled % 10 ^ f)))
  (if neg then "-" else "") ++ groupWestern ip ++
    (if fracStr = "" then "" else "." ++ fracStr)

/-- Model of `Math.round`: floor of `x + 1/2` (half rounds toward positive
infinity, as in JS). -/
def jsRound (x : Rat) : Int := (x + 1 / 2).floor

/-- Model of `Math.abs` on the rational embedding of a JS number. -/
def jsAbs (x : Rat) : Rat := if x < 0 then -x else x

/-- Decimal rendering of a JS number. Exact for integers; non-integers are
rendered with up to 17 fractional digits (truncated) — JS shortest-roundtrip
double formatting is not modelled, and no claim exercises it. -/
def ratToJsString (q : Rat) : String :=
  if q.den = 1 then toString q.num
  else
    let neg := q < 0
    let a := if neg then -q else q
    let ip := a.floor.toNat
    let fr : Nat := ((a - (ip : Rat)) * ((10 : Rat) ^ (17 : Nat))).floor.toNat
    (if neg then "-" else "") ++ toString ip ++ "." ++
      trimTrailingZeros (padZeros 17 (toString fr))

/-- Model of the JS `String(v)` coercion. -/
def jsToString : JVal → String
  | JVal.jnull => "null"
  | JVal.jundef => "undefined"
  | JVal.jbool b => if b then "true" else "false"
  | JVal.jnum q => ratToJsString q
  | JVal.jstr s => s
  | JVal.jarr _ => ""
  | JVal.jobj _ => "[object Object]"

/-- Escaping applied to string contents by the minimal `JSON.stringify`
model below (only claim-irrelevant object cells ever reach it). -/
def jsStrEscape (s : String) : String :=
  String.mk (s.data.flatMap (fun c =>
    if c = '"' then ['\\', '"']
    else if c = '\\' then ['\\', '\\']
    else if c = '\n' then ['\\', 'n']
    else [c]))

mutual

/-- Minimal model of `JSON.stringify` (insertion order, no spacing). -/
def jsonStringify : JVal → String
  | JVal.jnull => "null"
  | JVal.jundef => "undefined"
  | JVal.jbool b => if b then "true" else "false"
  | JVal.jnum q => ratToJsString q
  | JVal.jstr s => "\"" ++ jsStrEscape s ++ "\""
  | JVal.jarr es => "[" ++ jsonStringifyArr es ++ "]"
  | JVal.jobj fs => "\x7b" ++ jsonStringifyObj fs ++ "\x7d"

/-- Comma-joined serialization of an array's elements. -/
def jsonStringifyArr : List JVal → String
  | [] => ""
  | [e] => jsonStringify e
  | e :: e' :: es => jsonStringify e ++ "," ++ jsonStringifyArr (e' :: es)

/-- Comma-joined serialization of an object's fields. -/
def jsonStringifyObj : List (String × JVal) → String
  | [] => ""
  | [(k, v)] => "\"" ++ jsStrEscape k ++ "\":" ++ jsonStringify v
  | (k, v) :: f' :: fs =>
    "\"" ++ jsStrEscape k ++ "\":" ++ jsonStringify v ++ "," ++
      jsonStringifyObj (f' :: fs)

end

/-- Character-level HTML escaping performed by `escapeHtml` (a text node's
serialization escapes `&`, `<`, `>` and U+00A0). -/
def escapeHtmlL : List Char → List Char
  | [] => []
  | c :: rest =>
    (if c = '&' then "&amp;".data
     else if c = '<' then "&lt;".data
     else if c = '>' then "&gt;".data
     else if c = Char.ofNat 160 then "&nbsp;".data
     else [c]) ++ escapeHtmlL rest

/-- Model of `escapeHtml` from the utility module: assign to a `div`'s
`textContent`, read back `innerHTML`. -/
def escapeHtml (s : String) : String := String.mk (escapeHtmlL s.data)

/-- Whether `kw` occurs as a contiguous substring of `s` (JS
`String.prototype.includes`). -/
def containsSubL (kw : List Char) : List Char → Bool
  | [] => kw.isEmpty
  | c :: rest => kw.isPrefixOf (c :: rest) || containsSubL kw rest

/-- String wrapper for substring containment. -/
def hasSub (kw : String) (s : String) : Bool := containsSubL kw.data s.data

/-- ASCII lower-casing of a column name (`toLowerCase`; the heuristics only
ever compare against ASCII keywords). -/
def lowerAscii (s : String) : String := String.mk (s.data.map Char.toLower)

/-- First keyword group of `getColumnType`: rank/position names. -/
def rankLike (c : String) : Bool :=
  ["rank", "position", "row", "index"].any (fun kw => hasSub kw (lowerAscii c))

/-- Currency keyword group of `getColumnType` (includes `inr`). -/
def currencyLike (c : String) : Bool :=
  ["value", "amount", "sales", "revenue", "profit", "cost", "price", "total",
    "inr"].any (fun kw => hasSub kw (lowerAscii c))

/-- Exclusion applied inside the currency branch of `getColumnType`. -/
def exclLike (c : String) : Bool :=
  ["rank", "percent", "pct", "%"].any (fun kw => hasSub kw (lowerAscii c))

/-- Id/code keyword group of `getColumnType`. -/
def idLike (c : String) : Bool :=
  ["id", "code", "number", "no", "invoice"].any
    (fun kw => hasSub kw (lowerAscii c))

/-- Percentage keyword group of `getColumnType`. -/
def percentLike (c : String) : Bool :=
  ["percent", "pct", "rate", "ratio", "percentage"].any
    (fun kw => hasSub kw (lowerAscii c))

/-- Count keyword group of `getColumnType`. -/
def countLike (c : String) : Bool :=
  ["count", "qty", "quantity"].any (fun kw => hasSub kw (lowerAscii c))

/-- Column-type heuristic `getColumnType` from the utility module
(part_004): rank/position group first, then currency keywords with an
exclusion for rank/percent-bearing names, then id/code, percent, count. -/
def getColumnType (colName : String) : String :=
  if rankLike colName then "id"
  else if currencyLike colName then
    if exclLike colName then "default" else "currency"
  else if idLike colName then "id"
  else if percentLike colName then "percent"
  else if countLike colName then "count"
  else "default"

/-- Cell formatter `formatCellValue` from the utility module (part_004):
null/undefined become the placeholder glyph, objects are stringified and
escaped, numbers are formatted by the column-type heuristic, and any other
scalar is HTML-escaped. -/
def formatCellValue (value : JVal) (colName : String) : String :=
  match value with
  | JVal.jnull => "-"
  | JVal.jundef => "-"
  | JVal.jarr es => escapeHtml (jsonStringify (JVal.jarr es))
  | JVal.jobj fs => escapeHtml (jsonStringify (JVal.jobj fs))
  | JVal.jnum v =>
    let colType := getColumnType colName
    if colType = "currency" then
      if jsAbs v ≥ 10000000 then
        "₹" ++ jsToFixed 2 (v / 10000000) ++ " Cr"
      else if jsAbs v ≥ 100000 then
        "₹" ++ jsToFixed 2 (v / 100000) ++ " L"
      else "₹" ++ jsLocaleIN 2 v
    else if colType = "id" then toString (jsRound v)
    else if colType = "percent" then jsToFixed 2 v ++ "%"
    else if colType = "count" then jsLocaleIN 3 ((jsRound v : Int) : Rat)
    else jsLocaleIN 2 v
  | JVal.jstr s => escapeHtml s
  | JVal.jbool b => escapeHtml (if b then "true" else "false")

/-- Modelled from the spec (claim C4's classification order): the column
heuristic as the claim states it — rank/position/id-like names first, then
the enumerated currency keywords, then percentage-like, then count-like,
with no exclusion rule. Used only to compare against `getColumnType`. -/
def getColumnTypeClaim (colName : String) : String :=
  let lower := lowerAscii colName
  if ["rank", "position", "row", "index", "id", "code", "number", "no",
      "invoice"].any (fun kw => hasSub kw lower) then
    "id"
  else if ["value", "amount", "sales", "revenue", "profit", "cost", "price",
      "total"].any (fun kw => hasSub kw lower) then
    "currency"
  else if ["percent", "pct", "rate", "ratio", "percentage"].any
      (fun kw => hasSub kw lower) then
    "percent"
  else if ["count", "qty", "quantity"].any (fun kw => hasSub kw lower) then
    "count"
  else "default"

/-- Modelled from the spec (claim C4): `formatCell` with the claim's
classification order, identical magnitude rules. Used only to exhibit the
divergence from the source's `formatCellValue`. -/
def formatCellClaim (v : Rat) (colName : String) : String :=
  let colType := getColumnTypeClaim colName
  if colType = "currency" then
    if jsAbs v ≥ 10000000 then "₹" ++ jsToFixed 2 (v / 10000000) ++ " Cr"
    else if jsAbs v ≥ 100000 then "₹" ++ jsToFixed 2 (v / 100000) ++ " L"
    else "₹" ++ jsLocaleIN 2 v
  else if colType = "id" then toString (jsRound v)
  else if colType = "percent" then jsToFixed 2 v ++ "%"
  else if colType = "count" then jsLocaleIN 3 ((jsRound v : Int) : Rat)
  else jsLocaleIN 2 v

/-- Abbreviated month names used by the chart label formatter. -/
def shortMonths : List String :=
  ["Jan", "Feb", "Mar", "Apr", "May", "Jun",
   "Jul", "Aug", "Sep", "Oct", "Nov", "Dec"]

/-- Full month names used for bare month numbers. -/
def fullMonths : List String :=
  ["January", "February", "March", "April", "May", "June",
   "July", "August", "September", "October", "November", "December"]

/-- Value of a digit string under `parseInt(·, 10)`. -/
def digitsVal (cs : List Char) : Nat :=
  cs.foldl (fun a c => a * 10 + (c.toNat - 48)) 0

/-- `monthNames[m - 1]` interpolated into a template literal: out-of-range
indices yield the string `"undefined"`, exactly as in JS. -/
def monthShortName (m : Nat) : String :=
  if 1 ≤ m then (shortMonths.get? (m - 1)).getD "undefined" else "undefined"

/-- Whether the string starts with the ISO date pattern
`\d{4}-\d{2}-\d{2}` (a prefix match, as in the source regex). -/
def isoPrefixCheck : List Char → Bool
  | a :: b :: c :: d :: e :: f :: g :: h :: i :: j :: _ =>
    a.isDigit && b.isDigit && c.isDigit && d.isDigit && e == '-' &&
      f.isDigit && g.isDigit && h == '-' && i.isDigit && j.isDigit
  | _ => false

/-- The literal alternation `^(1|2|3|4|5|6|7|8|9|10|11|12)$`. -/
def monthNumStrs : List String :=
  ["1", "2", "3", "4", "5", "6", "7", "8", "9", "10", "11", "12"]

/-- Whether the string is exactly one of the bare month numbers. -/
def monthNumCheck (cs : List Char) : Bool :=
  monthNumStrs.any (fun m => m.data == cs)

/-- Whether the string is exactly `\d{4}-\d{2}` (anchored both ends). -/
def yearMonthCheck : List Char → Bool
  | [a, b, c, d, e, f, g] =>
    a.isDigit && b.isDigit && c.isDigit && d.isDigit && e == '-' &&
      f.isDigit && g.isDigit
  | _ => false

/-- Chart label formatter `truncateLabel` from charts.js, on the
stringified value: date-bucket detection (ISO date prefix, bare month
number, year-month), then length truncation with an ellipsis. -/
def truncateLabelS (s : String) (maxLen : Nat) : String :=
  let cs := s.data
  if isoPrefixCheck cs then
    let year := String.mk (cs.take 4)
    let monthNum := digitsVal ((cs.drop 5).take 2)
    let day := String.mk ((cs.drop 8).take 2)
    let monthName := monthShortName monthNum
    if day = "01" then monthName ++ " " ++ year
    else day ++ " " ++ monthName
  else if monthNumCheck cs then
    (fullMonths.get? (digitsVal cs - 1)).getD s
  else if yearMonthCheck cs then
    monthShortName (digitsVal (cs.drop 5)) ++ " " ++ String.mk (cs.take 4)
  else if cs.length > maxLen then String.mk (cs.take maxLen) ++ "..."
  else s

/-- `truncateLabel` on a raw cell value: null/undefined yield the empty
label, anything else is coerced with `String(value)` first. The JS default
for `maxLen` is 15. -/
def truncateLabel (v : JVal) (maxLen : Nat) : String :=
  match v with
  | JVal.jnull => ""
  | JVal.jundef => ""
  | v => truncateLabelS (jsToString v) maxLen

/-- Per-table pagination state, as stored in `window._tableData` by
query.js (columns, the immutable row list, the page size and the current
page). -/
structure TableState where
  columns : List String
  data : List JVal
  pageSize : Nat
  currentPage : Nat

/-- `Math.ceil(data.length / pageSize)` for a positive page size. -/
def totalPagesOf (s : TableState) : Nat :=
  (s.data.length + s.pageSize - 1) / s.pageSize

/-- `changePage` from query.js: move by `direction`, clamp the requested
page into `[1, totalPages]` with `Math.max(1, Math.min(·, totalPages))`,
and recompute the page as a fresh slice of the stored rows. Returns the
updated state together with the rows rendered for the page. -/
def changePage (s : TableState) (direction : Int) : TableState × List JVal :=
  let totalPages := totalPagesOf s
  let requested : Int := (s.currentPage : Int) + direction
  let newPage : Nat := (max 1 (min requested (totalPages : Int))).toNat
  let startIdx := (newPage - 1) * s.pageSize
  ({ s with currentPage := newPage },
    (s.data.drop startIdx).take s.pageSize)

/-- `goToPage` from the part_002 query module: an out-of-range request
returns immediately (a no-op), an in-range request re-renders at the
requested page, again slicing the unchanged rows. -/
def goToPage (s : TableState) (page : Int) : TableState :=
  if page < 1 ∨ page > (totalPagesOf s : Int) then s
  else { s with currentPage := page.toNat }

/-- Outcome of the inline visualization decision for one metadata event. -/
inductive VizOutcome where
  | chart (kind : String)
  | table
  | noViz
deriving DecidableEq

/-- Whether `v === t` for a string literal `t` (strict equality). -/
def strEqJ (v : JVal) (t : String) : Bool :=
  match v with
  | JVal.jstr s => s == t
  | _ => false

/-- Underlying string of a string value (only read under guards that
established the value is one of the chart-kind strings). -/
def strOf : JVal → String
  | JVal.jstr s => s
  | _ => ""

/-- `shouldRenderChart` from charts.js: falsy, `table` and `single_value`
hints never chart; fewer than 2 rows never chart; otherwise the hint must
be one of `bar`, `line`, `pie` (an `includes` check, i.e. strict string
equality). The `!data` guard is vacuous here because callers always pass
the materialized row array. -/
def shouldRenderChart (vizType : JVal) (data : List JVal) : Bool :=
  if !truthy vizType || strEqJ vizType "table" || strEqJ vizType "single_value" then
    false
  else if data.length < 2 then false
  else strEqJ vizType "bar" || strEqJ vizType "line" || strEqJ vizType "pie"

/-- The inline visualization decision of query.js's metadata handler (the
live streaming path): chart when `shouldRenderChart` allows it, a table
only when the (defaulted) hint is literally `table`, otherwise an empty
placeholder. `vizTypeRaw` is `resultData.viz_type`, defaulted with
`|| 'table'`. -/
def vizPlan (vizTypeRaw : JVal) (rows : List JVal) : VizOutcome :=
  let vizType := if truthy vizTypeRaw then vizTypeRaw else JVal.jstr "table"
  if shouldRenderChart vizType rows then VizOutcome.chart (strOf vizType)
  else if strEqJ vizType "table" then VizOutcome.table
  else VizOutcome.noViz

/-- The visualization decision of `createMessageElement` in the chat module
(part_001, the history-replay path): chart when allowed, otherwise always a
data table. -/
def vizPlanReplay (vizType : JVal) (rows : List JVal) : VizOutcome :=
  if shouldRenderChart vizType rows then VizOutcome.chart (strOf vizType)
  else VizOutcome.table

/-- `formatValue` from charts.js: placeholder for null/undefined, locale
formatting (host default) for numbers, `String(value)` otherwise. -/
def formatValue : JVal → String
  | JVal.jnull => "-"
  | JVal.jundef => "-"
  | JVal.jnum q => jsLocaleWestern 2 q
  | v => jsToString v

/-- Inner HTML written by `renderSingleValue` (template literal verbatim,
whitespace included). -/
def singleValueHtml (valueStr labelStr : String) : String :=
  "\n    <div class=\"single-value-display\">\n      " ++
    "<div class=\"single-value-number\">" ++ valueStr ++ "</div>\n      " ++
    "<div class=\"single-value-label\">" ++ labelStr ++ "</div>\n    " ++
    "</div>\n  "

/-- `renderSingleValue` from charts.js: nothing for an empty result;
otherwise the displayed value comes from `columns[1]` when there are at
least two columns, else from `columns[0]`, read off the first row. An
absent column index behaves like the JS key coercion `row[undefined]`. -/
def renderSingleValue (columns : List String) (data : List JVal) : Option String :=
  match data with
  | [] => none
  | row :: _ =>
    let key := if columns.length > 1 then columns.getD 1 "undefined"
      else columns.getD 0 "undefined"
    some (singleValueHtml (formatValue (jsField row key)) (escapeHtml key))

/-- Modelled from the spec (claim C8): single-value rendering that reads
the LAST column when there are at least two columns. Used only to compare
against `renderSingleValue`. -/
def renderSingleValueClaim (columns : List String) (data : List JVal) : Option String :=
  match data with
  | [] => none
  | row :: _ =>
    let key := if columns.length > 1 then columns.getLastD "undefined"
      else columns.getD 0 "undefined"
    some (singleValueHtml (formatValue (jsField row key)) (escapeHtml key))

/-- Scan for the closing occurrence of marker `m` of a lazy `(.*?)` group:
returns the inner text and the remainder after the closing marker, or fails
at a newline (the JS dot does not match `\n`) or at end of input. -/
def findClose (m : List Char) : List Char → Option (List Char × List Char)
  | [] => none
  | c :: rest =>
    if m.isPrefixOf (c :: rest) then some ([], (c :: rest).drop m.length)
    else if c = '\n' then none
    else
      match findClose m rest with
      | some (inner, rem) => some (c :: inner, rem)
      | none => none

/-- Global replacement of `m(.*?)m` by `pre ⬝ inner ⬝ post`, the JS lazy
replace used for the bold and italic markers. The fuel bounds recursion and
is instantiated with the input length (every step consumes a character). -/
def wrapReplF (m pre post : List Char) : Nat → List Char → List Char
  | 0, s => s
  | _ + 1, [] => []
  | fuel + 1, c :: rest =>
    if m.isPrefixOf (c :: rest) then
      match findClose m ((c :: rest).drop m.length) with
      | some (inner, rem) => pre ++ inner ++ post ++ wrapReplF m pre post fuel rem
      | none => c :: wrapReplF m pre post fuel rest
    else c :: wrapReplF m pre post fuel rest

/-- Entry point for the lazy wrap replacement. -/
def wrapRepl (m pre post : List Char) (s : List Char) : List Char :=
  wrapReplF m pre post s.length s

/-- The `\n` → `<br>` replacement. -/
def nlToBr (s : List Char) : List Char :=
  s.flatMap (fun c => if c = '\n' then "<br>".data else [c])

/-- Whitespace class `\s` of the numbered-list regex (ASCII part; the
replacement runs after all newlines were already turned into `<br>`). -/
def isJsSpace (c : Char) : Bool :=
  c == ' ' || c == '\t' || c == '\n' || c == '\r' ||
    c == Char.ofNat 11 || c == Char.ofNat 12

/-- The numbered-list replacement `^(\d+)\.\s` of query.js's
`formatAnswer`; since it runs after the newline replacement, only a match
at the very start of the string is possible. -/
def listNumRepl (s : List Char) : List Char :=
  let ds := s.takeWhile Char.isDigit
  let rest := s.dropWhile Char.isDigit
  if ds.isEmpty then s
  else
    match rest with
    | '.' :: w :: tail =>
      if isJsSpace w then
        "<span class=\"list-number\">".data ++ ds ++ ".</span> ".data ++ tail
      else s
    | _ => s

/-- `formatAnswer` from query.js (the streaming chat variant): bold, then
italic, then newline and list replacements — with no HTML escaping. -/
def formatAnswerQ (text : String) : String :=
  if text.isEmpty then ""
  else
    String.mk (listNumRepl (nlToBr
      (wrapRepl "*".data "<em>".data "</em>".data
        (wrapRepl "**".data "<strong>".data "</strong>".data text.data))))

/-- `formatAnswer` from the utility module (part_004): HTML-escape first,
then the bold and newline replacements. -/
def formatAnswerUtil (text : String) : String :=
  String.mk (nlToBr
    (wrapRepl "**".data "<strong>".data "</strong>".data
      (escapeHtml text).data))

/-- The inline error span assigned by the stream loop's error handler in
query.js: `data.error` is interpolated into the template literal verbatim. -/
def errorSpanHtml (msg : String) : String :=
  "<span class=\"error-text\">⚠️ " ++ msg ++ "</span>"

/-- `renderError` from the part_003 query module: the error container HTML
(template literal verbatim, whitespace included), with `data.error`
interpolated verbatim. -/
def renderErrorHtml (msg : String) : String :=
  "\n    <div class=\"result-error\">\n      <strong>⚠️ Oops!</strong> " ++
    msg ++ "\n    </div>\n  "

/-- The trailing in-progress cursor appended while tokens stream. -/
def cursorSpan : String := "<span class=\"streaming-cursor\">▊</span>"

/-- DOM-visible state of one `askQuestion` exchange in query.js: whether
the handler returned (service error), the loading / ask-button flags, the
error messages appended to the chat, the metadata flag and payload, the
ambient `currentChatId`, the assistant answer paragraph (absent until
metadata creates the message), the visualization placeholder decision, the
accumulated answer, and the number of chat-history refreshes. -/
structure SessionState where
  halted : Bool
  loadingShown : Bool
  askBtnDisabled : Bool
  errorMessages : List String
  metadataReceived : Bool
  resultData : Option JVal
  currentChatId : Option JVal
  answerBubble : Option String
  vizContent : Option VizOutcome
  streamedAnswer : String
  historyReloads : Nat

/-- State right after the request is issued (loading shown, button
disabled, no assistant message yet), for a fresh chat. -/
def initialSession : SessionState :=
  ⟨false, true, true, [], false, none, none, none, none, "", 0⟩

/-- One parsed `data:` payload driving query.js's stream loop. The error
check returns from the whole function; the `type` checks run in sequence;
a `token` is rejected until `metadataReceived`; a `done` with no bubble
throws on `bubbleP.innerHTML` (caught by the loop), so the history refresh
does not happen. -/
def stepData (s : SessionState) (data : JVal) : SessionState :=
  if s.halted then s
  else if truthy (jsField data "error") then
    { s with halted := true, loadingShown := false, askBtnDisabled := false,
             errorMessages := s.errorMessages ++
               [errorSpanHtml (jsToString (jsField data "error"))] }
  else
    let s1 :=
      if typeIs data "metadata" then
        let curFalsy :=
          match s.currentChatId with
          | none => true
          | some v => !truthy v
        { s with
            metadataReceived := true
            resultData := some data
            currentChatId :=
              if truthy (jsField data "chat_id") && curFalsy then
                some (jsField data "chat_id")
              else s.currentChatId
            loadingShown := false
            answerBubble := some ""
            vizContent :=
              match jsField data "data" with
              | JVal.jarr rows =>
                if rows.length > 0 then
                  some (vizPlan (jsField data "viz_type") rows)
                else s.vizContent
              | _ => s.vizContent }
      else s
    let s2 :=
      if typeIs data "token" && s1.metadataReceived then
        let ans := s1.streamedAnswer ++ jsToString (jsField data "content")
        match s1.answerBubble with
        | some _ =>
          { s1 with streamedAnswer := ans,
                    answerBubble := some (formatAnswerQ ans ++ cursorSpan) }
        | none => { s1 with streamedAnswer := ans }
      else s1
    if typeIs data "done" then
      match s2.answerBubble with
      | some _ =>
        { s2 with answerBubble := some (formatAnswerQ s2.streamedAnswer),
                  historyReloads := s2.historyReloads + 1 }
      | none => s2
    else s2

/-- Process a sequence of parsed payloads in arrival order. -/
def runSession (s : SessionState) (events : List JVal) : SessionState :=
  events.foldl stepData s

/-- A `token` payload. -/
def tokenObj (content : String) : JVal :=
  JVal.jobj [("type", JVal.jstr "token"), ("content", JVal.jstr content)]

/-- A bare `done` payload. -/
def doneObj : JVal := JVal.jobj [("type", JVal.jstr "done")]

/-- A minimal `metadata` payload (no rows, no chat id). -/
def metadataObj : JVal := JVal.jobj [("type", JVal.jstr "metadata")]

/-- A service-error payload. -/
def errorObj (msg : String) : JVal := JVal.jobj [("error", JVal.jstr msg)]

/-- Streaming state of the WHATWG UTF-8 decoder backing
`new TextDecoder()` with `decode(chunk, { stream: true })`: the partially
assembled code point, how many continuation bytes are expected and seen so
far, the admissible range for the next byte, and whether the leading BOM
check already happened. -/
structure DecState where
  codepoint : Nat
  bytesNeeded : Nat
  bytesSeen : Nat
  lower : Nat
  upper : Nat
  bomChecked : Bool

/-- Decoder state at stream start. -/
def initDecState : DecState := ⟨0, 0, 0, 0x80, 0xBF, false⟩

/-- Handle one byte in the ground state (no multi-byte sequence pending). -/
def utf8Lead (st : DecState) (b : Nat) : DecState × List Nat :=
  if b ≤ 0x7F then (st, [b])
  else if 0xC2 ≤ b ∧ b ≤ 0xDF then
    ({ st with bytesNeeded := 1, bytesSeen := 0, codepoint := b % 32,
               lower := 0x80, upper := 0xBF }, [])
  else if 0xE0 ≤ b ∧ b ≤ 0xEF then
    ({ st with bytesNeeded := 2, bytesSeen := 0, codepoint := b % 16,
               lower := if b = 0xE0 then 0xA0 else 0x80,
               upper := if b = 0xED then 0x9F else 0xBF }, [])
  else if 0xF0 ≤ b ∧ b ≤ 0xF4 then
    ({ st with bytesNeeded := 3, bytesSeen := 0, codepoint := b % 8,
               lower := if b = 0xF0 then 0x90 else 0x80,
               upper := if b = 0xF4 then 0x8F else 0xBF }, [])
  else (st, [0xFFFD])

/-- One byte of the WHATWG UTF-8 decoding algorithm: continuation bytes
extend the pending code point; an out-of-range byte emits U+FFFD and is
reprocessed in the ground state. -/
def utf8Byte (st : DecState) (b : Nat) : DecState × List Nat :=
  if st.bytesNeeded = 0 then utf8Lead st b
  else if st.lower ≤ b ∧ b ≤ st.upper then
    let cp := st.codepoint * 64 + b % 64
    if st.bytesSeen + 1 = st.bytesNeeded then
      ({ st with bytesNeeded := 0, bytesSeen := 0, codepoint := 0,
                 lower := 0x80, upper := 0xBF }, [cp])
    else
      ({ st with codepoint := cp, bytesSeen := st.bytesSeen + 1,
                 lower := 0x80, upper := 0xBF }, [])
  else
    let st0 := { st with bytesNeeded := 0, bytesSeen := 0, codepoint := 0,
                         lower := 0x80, upper := 0xBF }
    let (st', out) := utf8Lead st0 b
    (st', 0xFFFD :: out)

/-- One byte step including the `TextDecoder` BOM rule (default
`ignoreBOM: false`): a U+FEFF that is the first code point of the whole
stream is dropped. Emits characters. -/
def decodeByte (st : DecState) (b : Nat) : DecState × List Char :=
  let (st', cps) := utf8Byte st b
  match cps with
  | [] => (st', [])
  | c :: rest =>
    if st'.bomChecked then (st', (c :: rest).map Char.ofNat)
    else
      let st'' := { st' with bomChecked := true }
      if c = 0xFEFF then (st'', rest.map Char.ofNat)
      else (st'', (c :: rest).map Char.ofNat)

/-- Decode one raw chunk incrementally (`decoder.decode(value,
{ stream: true })`): bytes are processed in order, the state carries any
incomplete trailing sequence to the next chunk. -/
def decodeChunk : DecState → List Nat → DecState × List Char
  | st, [] => (st, [])
  | st, b :: bs =>
    ((decodeChunk (decodeByte st b).1 bs).1,
     (decodeByte st b).2 ++ (decodeChunk (decodeByte st b).1 bs).2)

/-- JS `String.prototype.split` with the non-empty separator `d0 :: ds`:
left-to-right scan, non-overlapping matches, empty segments preserved
(`"".split(sep)` is `[""]`). -/
def splitSeq (d0 : Char) (ds : List Char) : List Char → List (List Char)
  | [] => [[]]
  | c :: rest =>
    if c = d0 ∧ ds.isPrefixOf rest then
      [] :: splitSeq d0 ds (rest.drop ds.length)
    else
      match splitSeq d0 ds rest with
      | [] => [[c]]
      | h :: t => (c :: h) :: t
termination_by l => l.length
decreasing_by
  all_goals simp [List.length_drop]
  omega

/-- A decoded protocol event, as dispatched by the stream loop: the
`error` check runs first, then the `type` discriminator; payloads matching
neither are retained here (and ignored by every handler). -/
inductive StreamEvent where
  | errorEv (v : JVal)
  | metadataEv (v : JVal)
  | tokenEv (v : JVal)
  | doneEv (v : JVal)
  | otherEv (v : JVal)

/-- Classify one parsed payload into a protocol event, in the source's
dispatch order. -/
def classifyEvent (v : JVal) : StreamEvent :=
  if truthy (jsField v "error") then StreamEvent.errorEv v
  else if typeIs v "metadata" then StreamEvent.metadataEv v
  else if typeIs v "token" then StreamEvent.tokenEv v
  else if typeIs v "done" then StreamEvent.doneEv v
  else StreamEvent.otherEv v

/-- JSON whitespace. -/
def isWsChar (c : Char) : Bool := c == ' ' || c == '\n' || c == '\t' || c == '\r'

/-- Skip JSON whitespace. -/
def skipWs : List Char → List Char
  | c :: cs => if isWsChar c then skipWs cs else c :: cs
  | [] => []

/-- Hexadecimal digit value. -/
def hexDigitVal (c : Char) : Option Nat :=
  if '0' ≤ c ∧ c ≤ '9' then some (c.toNat - 48)
  else if 'a' ≤ c ∧ c ≤ 'f' then some (c.toNat - 97 + 10)
  else if 'A' ≤ c ∧ c ≤ 'F' then some (c.toNat - 65 + 10)
  else none

/-- Longest digit run at the front of the input. -/
def takeDigitsL : List Char → List Char × List Char
  | c :: cs =>
    if c.isDigit then
      let (ds, r) := takeDigitsL cs
      (c :: ds, r)
    else ([], c :: cs)
  | [] => ([], [])

/-- Parse the body of a JSON string after the opening quote. Escape
sequences follow RFC 8259; a `\uXXXX` high surrogate immediately followed
by a `\uXXXX` low surrogate combines into one character (a lone surrogate,
not representable in `Char`, degrades to the null character — no protocol
payload contains one). -/
def parseJStr (acc : List Char) : List Char → Option (String × List Char)
  | '"' :: rest => some (String.mk acc.reverse, rest)
  | '\\' :: 'u' :: a :: b :: c :: d :: '\\' :: 'u' :: a2 :: b2 :: c2 :: d2 :: rest2 =>
    (match hexDigitVal a, hexDigitVal b, hexDigitVal c, hexDigitVal d with
     | some va, some vb, some vc, some vd =>
       let n := ((va * 16 + vb) * 16 + vc) * 16 + vd
       let loneOrPlain := parseJStr (Char.ofNat n :: acc)
         ('\\' :: 'u' :: a2 :: b2 :: c2 :: d2 :: rest2)
       if 0xD800 ≤ n ∧ n ≤ 0xDBFF then
         match hexDigitVal a2, hexDigitVal b2, hexDigitVal c2, hexDigitVal d2 with
         | some wa, some wb, some wc, some wd =>
           let n2 := ((wa * 16 + wb) * 16 + wc) * 16 + wd
           if 0xDC00 ≤ n2 ∧ n2 ≤ 0xDFFF then
             parseJStr
               (Char.ofNat (0x10000 + (n - 0xD800) * 0x400 + (n2 - 0xDC00)) :: acc)
               rest2
           else loneOrPlain
         | _, _, _, _ => none
       else loneOrPlain
     | _, _, _, _ => none)
  | '\\' :: 'u' :: a :: b :: c :: d :: rest =>
    (match hexDigitVal a, hexDigitVal b, hexDigitVal c, hexDigitVal d with
     | some va, some vb, some vc, some vd =>
       let n := ((va * 16 + vb) * 16 + vc) * 16 + vd
       parseJStr (Char.ofNat n :: acc) rest
     | _, _, _, _ => none)
  | '\\' :: e :: rest =>
    (match e with
     | '"' => parseJStr ('"' :: acc) rest
     | '\\' => parseJStr ('\\' :: acc) rest
     | '/' => parseJStr ('/' :: acc) rest
     | 'n' => parseJStr ('\n' :: acc) rest
     | 'r' => parseJStr ('\r' :: acc) rest
     | 't' => parseJStr ('\t' :: acc) rest
     | 'b' => parseJStr (Char.ofNat 8 :: acc) rest
     | 'f' => parseJStr (Char.ofNat 12 :: acc) rest
     | _ => none)
  | c :: rest => parseJStr (c :: acc) rest
  | [] => none
termination_by l => l.length
decreasing_by all_goals simp <;> omega

/-- Parse a JSON number into an exact rational. -/
def parseJNum (cs : List Char) : Option (Rat × List Char) :=
  let (neg, cs1) := match cs with
    | '-' :: r => (true, r)
    | _ => (false, cs)
  let (ids, cs2) := takeDigitsL cs1
  if ids.isEmpty then none
  else
    let intPart : Rat := (digitsVal ids : Nat)
    let fracState : Option (Rat × List Char) :=
      match cs2 with
      | '.' :: r =>
        let (fds, cs3) := takeDigitsL r
        if fds.isEmpty then none
        else some (intPart + (digitsVal fds : Nat) / ((10 : Rat) ^ fds.length), cs3)
      | _ => some (intPart, cs2)
    match fracState with
    | none => none
    | some (mag, cs3) =>
      let expState : Option (Rat × List Char) :=
        match cs3 with
        | 'e' :: r | 'E' :: r =>
          let (esign, r2) := match r with
            | '+' :: rr => (false, rr)
            | '-' :: rr => (true, rr)
            | _ => (false, r)
          let (eds, cs4) := takeDigitsL r2
          if eds.isEmpty then none
          else
            let e := digitsVal eds
            some ((if esign then mag / ((10 : Rat) ^ e) else mag * ((10 : Rat) ^ e)), cs4)
        | _ => some (mag, cs3)
      match expState with
      | none => none
      | some (q, cs5) => some ((if neg then -q else q), cs5)

mutual

/-- Fuel-bounded recursive-descent parse of one JSON value. -/
def parseJVal : Nat → List Char → Option (JVal × List Char)
  | 0, _ => none
  | fuel + 1, cs =>
    match skipWs cs with
    | 'n' :: 'u' :: 'l' :: 'l' :: rest => some (JVal.jnull, rest)
    | 't' :: 'r' :: 'u' :: 'e' :: rest => some (JVal.jbool true, rest)
    | 'f' :: 'a' :: 'l' :: 's' :: 'e' :: rest => some (JVal.jbool false, rest)
    | '"' :: rest =>
      (match parseJStr [] rest with
       | some (s, r) => some (JVal.jstr s, r)
       | none => none)
    | '[' :: rest =>
      (match skipWs rest with
       | ']' :: rest2 => some (JVal.jarr [], rest2)
       | cs2 => parseJArrElems fuel cs2 [])
    | '\x7b' :: rest =>
      (match skipWs rest with
       | '\x7d' :: rest2 => some (JVal.jobj [], rest2)
       | cs2 => parseJObjFields fuel cs2 [])
    | cs' =>
      (match parseJNum cs' with
       | some (q, r) => some (JVal.jnum q, r)
       | none => none)

/-- Array elements after the opening bracket (non-empty case). -/
def parseJArrElems : Nat → List Char → List JVal → Option (JVal × List Char)
  | 0, _, _ => none
  | fuel + 1, cs, acc =>
    match parseJVal fuel cs with
    | none => none
    | some (v, rest) =>
      match skipWs rest with
      | ',' :: rest2 => parseJArrElems fuel rest2 (v :: acc)
      | ']' :: rest2 => some (JVal.jarr (v :: acc).reverse, rest2)
      | _ => none

/-- Object members after the opening brace (non-empty case). -/
def parseJObjFields : Nat → List Char → List (String × JVal) → Option (JVal × List Char)
  | 0, _, _ => none
  | fuel + 1, cs, acc =>
    match skipWs cs with
    | '"' :: rest =>
      (match parseJStr [] rest with
       | none => none
       | some (k, rest2) =>
         match skipWs rest2 with
         | ':' :: rest3 =>
           (match parseJVal fuel rest3 with
            | none => none
            | some (v, rest4) =>
              match skipWs rest4 with
              | ',' :: rest5 => parseJObjFields fuel rest5 ((k, v) :: acc)
              | '\x7d' :: rest5 => some (JVal.jobj ((k, v) :: acc).reverse, rest5)
              | _ => none)
         | _ => none)
    | _ => none

end

/-- Model of `JSON.parse` on a decoded segment: one value, then only
trailing whitespace. -/
def parseJson (cs : List Char) : Option JVal :=
  match parseJVal (cs.length + 2) cs with
  | some (v, rest) => if (skipWs rest).isEmpty then some v else none
  | none => none

/-- The literal payload marker `data: `. -/
def dataMarker : List Char := "data: ".data

/-- Interpret one complete segment: only `data: `-tagged lines are parsed;
parse failures are skipped silently, as is a literal `null` payload (whose
`.error` access throws inside the same guarded block). -/
def parseEventLine (line : List Char) : Option StreamEvent :=
  if dataMarker.isPrefixOf line then
    match parseJson (line.drop 6) with
    | some JVal.jnull => none
    | some v => some (classifyEvent v)
    | none => none
  else none

/-- State carried between chunk-processing iterations of the stream loop:
the text decoder's streaming state plus the undecided carry-over text. -/
structure RStream where
  dec : DecState
  buffer : List Char

/-- Reassembler state at stream start. -/
def initRStream : RStream := ⟨initDecState, []⟩

/-- One iteration of the stream-reading loop on one raw byte chunk:
`buffer += decoder.decode(value, { stream: true })`, split the buffer on
the delimiter, pop the last segment back into the buffer, and interpret
every complete segment. -/
def feedChunk (d0 : Char) (ds : List Char) (s : RStream) (chunk : List Nat) :
    RStream × List StreamEvent :=
  (⟨(decodeChunk s.dec chunk).1,
    (splitSeq d0 ds (s.buffer ++ (decodeChunk s.dec chunk).2)).getLastD []⟩,
   ((splitSeq d0 ds (s.buffer ++ (decodeChunk s.dec chunk).2)).dropLast).filterMap
     parseEventLine)

/-- Feed a sequence of chunks one at a time, concatenating the decoded
events in order. -/
def feedMany (d0 : Char) (ds : List Char) :
    RStream → List (List Nat) → RStream × List StreamEvent
  | s, [] => (s, [])
  | s, c :: cs =>
    ((feedMany d0 ds (feedChunk d0 ds s c).1 cs).1,
     (feedChunk d0 ds s c).2 ++ (feedMany d0 ds (feedChunk d0 ds s c).1 cs).2)

/-! ### Theorems -/

/-- C2: the live visualization decision at the failing input. A `pie` hint
with one row renders no visualization in query.js's streaming path — the
`else` branch's own comment claims `viz_type` is `none` there — while the
history-replay path (`createMessageElement`) falls back to a data table
for the very same message; with two or more rows the chart is produced. -/
theorem c2_chart_fallback_failing_input :
    vizPlan (JVal.jstr "pie")
        [JVal.jobj [("region", JVal.jstr "north"), ("sales", JVal.jnum 5)]] =
      VizOutcome.noViz ∧
    vizPlanReplay (JVal.jstr "pie")
        [JVal.jobj [("region", JVal.jstr "north"), ("sales", JVal.jnum 5)]] =
      VizOutcome.table ∧
    vizPlan (JVal.jstr "pie")
        (List.replicate 5 (JVal.jobj [("region", JVal.jstr "north"), ("sales", JVal.jnum 5)])) =
      VizOutcome.chart "pie" ∧
    vizPlan (JVal.jstr "bar") (List.replicate 2 (JVal.jobj [])) = VizOutcome.chart "bar" ∧
    vizPlan (JVal.jstr "line") (List.replicate 2 (JVal.jobj [])) = VizOutcome.chart "line" ∧
    vizPlan (JVal.jstr "table") [JVal.jobj []] = VizOutcome.table :=
  ⟨rfl, rfl, rfl, rfl, rfl, rfl⟩

/-- C8 is refuted with three columns: `renderSingleValue` displays the
value of the SECOND column (`columns[1]`), not the last one as claimed. -/
theorem c8_second_not_last_counterexample :
    renderSingleValue ["a", "b", "c"]
        [JVal.jobj [("a", JVal.jnum 1), ("b", JVal.jnum 2), ("c", JVal.jnum 3)]] =
      some (singleValueHtml "2" "b") ∧
    renderSingleValueClaim ["a", "b", "c"]
        [JVal.jobj [("a", JVal.jnum 1), ("b", JVal.jnum 2), ("c", JVal.jnum 3)]] =
      some (singleValueHtml "3" "c") ∧
    renderSingleValue ["a", "b", "c"]
        [JVal.jobj [("a", JVal.jnum 1), ("b", JVal.jnum 2), ("c", JVal.jnum 3)]] ≠
      renderSingleValueClaim ["a", "b", "c"]
        [JVal.jobj [("a", JVal.jnum 1), ("b", JVal.jnum 2), ("c", JVal.jnum 3)]] :=
  ⟨by with_unfolding_all rfl, by with_unfolding_all rfl, by with_unfolding_all decide⟩

/-- C8 (amended): when the result has at least one row, the displayed
value is read off the first row from the SECOND column when there are two
or more columns, and from the only column otherwise. -/
theorem c8_single_value_amended :
    (∀ (columns : List String) (row : JVal) (rest : List JVal),
      columns.length > 1 →
      renderSingleValue columns (row :: rest) =
        some (singleValueHtml (formatValue (jsField row (columns.getD 1 "undefined")))
          (escapeHtml (columns.getD 1 "undefined")))) ∧
    (∀ (col : String) (row : JVal) (rest : List JVal),
      renderSingleValue [col] (row :: rest) =
        some (singleValueHtml (formatValue (jsField row col)) (escapeHtml col))) ∧
    (∀ (columns : List String), renderSingleValue columns [] = none) := by
  refine ⟨?_, ?_, ?_⟩
  · intro columns row rest h
    simp [renderSingleValue, h]
  · intro col row rest
    simp [renderSingleValue]
  · intro columns
    rfl

/-- Witness for the amended C8 at a concrete two-column result. -/
theorem c8_single_value_amended_witness :
    renderSingleValue ["region", "sales"]
        [JVal.jobj [("region", JVal.jstr "north"), ("sales", JVal.jnum 2)]] =
      some (singleValueHtml
        (formatValue (jsField (JVal.jobj [("region", JVal.jstr "north"), ("sales", JVal.jnum 2)])
          (["region", "sales"].getD 1 "undefined")))
        (escapeHtml (["region", "sales"].getD 1 "undefined"))) :=
  c8_single_value_amended.1 ["region", "sales"]
    (JVal.jobj [("region", JVal.jstr "north"), ("sales", JVal.jnum 2)]) [] (by decide)

/-- C4 is refuted at the column name `sales_pct`: it contains the currency
keyword `sales` and no rank/position keyword, so the claim's priority
order (currency before percentage) formats `45.5` as currency (`₹45.5`);
the source's exclusion rule inside the currency branch classifies the name
as `default` instead and renders `45.5` with no currency glyph. -/
theorem c4_priority_counterexample :
    getColumnType "sales_pct" = "default" ∧
    getColumnTypeClaim "sales_pct" = "currency" ∧
    formatCellValue (JVal.jnum (45.5 : Rat)) "sales_pct" = "45.5" ∧
    formatCellClaim (45.5 : Rat) "sales_pct" = "₹45.5" ∧
    formatCellValue (JVal.jnum (45.5 : Rat)) "sales_pct" ≠
      formatCellClaim (45.5 : Rat) "sales_pct" :=
  ⟨by decide, by decide, by with_unfolding_all rfl, by with_unfolding_all rfl,
   by with_unfolding_all decide⟩

/-- C4 (amended): the classifier checks rank/position-like names first,
then currency-like names — except that a currency-like name also bearing a
rank or percent keyword falls through to default formatting — then
id/code-like, then percentage-like, then count-like names; the magnitude
rules and the claim's three example evaluations hold as stated. -/
theorem c4_format_heuristic_amended :
    formatCellValue (JVal.jnum 12345678) "total_sales" = "₹1.23 Cr" ∧
    formatCellValue (JVal.jnum 45) "discount_pct" = "45.00%" ∧
    (∀ c : String, formatCellValue JVal.jnull c = "-") ∧
    (∀ c, rankLike c = true → getColumnType c = "id") ∧
    (∀ c, rankLike c = false → currencyLike c = true → exclLike c = true →
      getColumnType c = "default") ∧
    (∀ c, rankLike c = false → currencyLike c = true → exclLike c = false →
      getColumnType c = "currency") ∧
    (∀ c, rankLike c = false → currencyLike c = false → idLike c = true →
      getColumnType c = "id") ∧
    (∀ c, rankLike c = false → currencyLike c = false → idLike c = false →
      percentLike c = true → getColumnType c = "percent") ∧
    (∀ c, rankLike c = false → currencyLike c = false → idLike c = false →
      percentLike c = false → countLike c = true → getColumnType c = "count") ∧
    (∀ (q : Rat) (c : String), getColumnType c = "currency" →
      10000000 ≤ jsAbs q →
      formatCellValue (JVal.jnum q) c = "₹" ++ jsToFixed 2 (q / 10000000) ++ " Cr") ∧
    (∀ (q : Rat) (c : String), getColumnType c = "currency" →
      jsAbs q < 10000000 → 100000 ≤ jsAbs q →
      formatCellValue (JVal.jnum q) c = "₹" ++ jsToFixed 2 (q / 100000) ++ " L") ∧
    (∀ (q : Rat) (c : String), getColumnType c = "percent" →
      formatCellValue (JVal.jnum q) c = jsToFixed 2 q ++ "%") := by
  refine ⟨by with_unfolding_all rfl, by with_unfolding_all rfl, fun c => rfl,
    ?_, ?_, ?_, ?_, ?_, ?_, ?_, ?_, ?_⟩
  · intro c h; simp [getColumnType, h]
  · intro c h1 h2 h3; simp [getColumnType, h1, h2, h3]
  · intro c h1 h2 h3; simp [getColumnType, h1, h2, h3]
  · intro c h1 h2 h3; simp [getColumnType, h1, h2, h3]
  · intro c h1 h2 h3 h4; simp [getColumnType, h1, h2, h3, h4]
  · intro c h1 h2 h3 h4 h5; simp [getColumnType, h1, h2, h3, h4, h5]
  · intro q c h1 h2
    simp [formatCellValue, h1, ge_iff_le, h2]
  · intro q c h1 h2 h3
    simp [formatCellValue, h1, ge_iff_le, h3, not_le.mpr h2]
  · intro q c h1
    simp [formatCellValue, h1]

/-- Witness for the amended C4: the exclusion clause evaluated at
`sales_pct`, and the currency magnitude clause at the claim's example. -/
theorem c4_format_heuristic_amended_witness :
    getColumnType "sales_pct" = "default" ∧
    formatCellValue (JVal.jnum 12345678) "total_sales" =
      "₹" ++ jsToFixed 2 ((12345678 : Rat) / 10000000) ++ " Cr" :=
  ⟨c4_format_heuristic_amended.2.2.2.2.1 "sales_pct" (by decide) (by decide) (by decide),
   c4_format_heuristic_amended.2.2.2.2.2.2.2.2.2.1 12345678 "total_sales"
     (by decide) (by decide)⟩

/-- C10: a service-reported error message is interpolated into the
rendered HTML verbatim — both by the streaming error handler's span and by
`renderError` — and never passes through `escapeHtml`; by contrast, answer
text is escaped before the markdown replacements, and every string-valued
table cell is escaped by `formatCellValue`. The last conjuncts separate
the two behaviours on a concrete payload. -/
theorem c10_error_unescaped_vs_escaped_answer :
    (∀ msg : String,
      errorSpanHtml msg = "<span class=\"error-text\">⚠️ " ++ msg ++ "</span>") ∧
    (∀ msg : String,
      renderErrorHtml msg =
        "\n    <div class=\"result-error\">\n      <strong>⚠️ Oops!</strong> " ++
          msg ++ "\n    </div>\n  ") ∧
    (∀ t : String,
      formatAnswerUtil t =
        String.mk (nlToBr (wrapRepl "**".data "<strong>".data "</strong>".data
          (escapeHtml t).data))) ∧
    (∀ (v : String) (c : String), formatCellValue (JVal.jstr v) c = escapeHtml v) ∧
    escapeHtml "<img src=x>" = "&lt;img src=x&gt;" ∧
    errorSpanHtml "<img src=x>" = "<span class=\"error-text\">⚠️ <img src=x></span>" ∧
    formatAnswerUtil "<img src=x>" = "&lt;img src=x&gt;" ∧
    errorSpanHtml "<img src=x>" ≠
      "<span class=\"error-text\">⚠️ " ++ escapeHtml "<img src=x>" ++ "</span>" :=
  ⟨fun _ => rfl, fun _ => rfl, fun _ => rfl, fun _ _ => rfl,
   by decide, by decide, by decide, by decide⟩

/-- C6: for a nonempty row list and positive page size, `changePage` keeps
the current page inside `[1, ceil(count/pageSize)]`; `totalPagesOf` is that
ceiling (95 rows at page size 20 give 5 pages; a requested page 10 clamps
to 5); previous at page 1 stays at page 1; the stored rows are never
mutated and every page is a recomputed slice; `goToPage` treats an
out-of-range request as a no-op and also never touches the rows. -/
theorem c6_pagination_view :
    (∀ (s : TableState) (d : Int), 0 < s.pageSize → 0 < s.data.length →
      1 ≤ (changePage s d).1.currentPage ∧
        (changePage s d).1.currentPage ≤ totalPagesOf s) ∧
    (∀ s : TableState,
      totalPagesOf s = (s.data.length + s.pageSize - 1) / s.pageSize) ∧
    totalPagesOf ⟨["v"], List.replicate 95 JVal.jnull, 20, 1⟩ = 5 ∧
    (changePage ⟨["v"], List.replicate 95 JVal.jnull, 20, 9⟩ 1).1.currentPage = 5 ∧
    (∀ s : TableState, s.currentPage = 1 →
      (changePage s (-1)).1.currentPage = 1) ∧
    (∀ (s : TableState) (d : Int),
      (changePage s d).1.data = s.data ∧ (changePage s d).1.columns = s.columns ∧
      (changePage s d).2 =
        (s.data.drop (((changePage s d).1.currentPage - 1) * s.pageSize)).take
          s.pageSize) ∧
    (∀ (s : TableState) (p : Int),
      (p < 1 ∨ p > (totalPagesOf s : Int)) → goToPage s p = s) ∧
    (∀ (s : TableState) (p : Int), (goToPage s p).data = s.data) := by
  refine ⟨?_, fun s => rfl, by decide, by with_unfolding_all rfl, ?_, ?_, ?_, ?_⟩
  · intro s d h1 h2
    have htp : 1 ≤ totalPagesOf s := by
      have hm : 1 * s.pageSize ≤ s.data.length + s.pageSize - 1 := by omega
      have := (Nat.le_div_iff_mul_le h1).mpr hm
      simpa [totalPagesOf] using this
    have hmin : min ((s.currentPage : Int) + d) ((totalPagesOf s : Int)) ≤
        (totalPagesOf s : Int) := min_le_right _ _
    have hmax : (1 : Int) ≤
        max 1 (min ((s.currentPage : Int) + d) ((totalPagesOf s : Int))) :=
      le_max_left _ _
    have hmax2 : max (1 : Int)
        (min ((s.currentPage : Int) + d) ((totalPagesOf s : Int))) ≤
        (totalPagesOf s : Int) :=
      max_le (by exact_mod_cast htp) hmin
    constructor
    · simp only [changePage]
      omega
    · simp only [changePage]
      omega
  · intro s h
    have h0 : (0 : Int) ≤ (totalPagesOf s : Int) := Int.natCast_nonneg _
    simp only [changePage, h]
    omega
  · intro s d
    exact ⟨rfl, rfl, rfl⟩
  · intro s p h
    simp only [goToPage]
    rw [if_pos h]
  · intro s p
    unfold goToPage
    split <;> rfl

/-- Witness for C6 at concrete 95-row state. -/
theorem c6_pagination_view_witness :
    1 ≤ (changePage ⟨["v"], List.replicate 95 JVal.jnull, 20, 3⟩ 1).1.currentPage ∧
    (changePage ⟨["v"], List.replicate 95 JVal.jnull, 20, 3⟩ 1).1.currentPage ≤
      totalPagesOf ⟨["v"], List.replicate 95 JVal.jnull, 20, 3⟩ :=
  c6_pagination_view.1 ⟨["v"], List.replicate 95 JVal.jnull, 20, 3⟩ 1
    (by decide) (by decide)

/-- Destructure a list of known length 4. -/
theorem list_len_four {α : Type} : ∀ (l : List α), l.length = 4 →
    ∃ a b c d, l = [a, b, c, d]
  | [], h => by simp only [List.length_nil] at h; omega
  | [_], h => by simp only [List.length_cons, List.length_nil] at h; omega
  | [_, _], h => by simp only [List.length_cons, List.length_nil] at h; omega
  | [_, _, _], h => by simp only [List.length_cons, List.length_nil] at h; omega
  | [a, b, c, d], _ => ⟨a, b, c, d, rfl⟩
  | _ :: _ :: _ :: _ :: _ :: t, h => by
    simp only [List.length_cons, List.length_nil] at h
    omega

/-- Destructure a list of known length 2. -/
theorem list_len_two {α : Type} : ∀ (l : List α), l.length = 2 →
    ∃ a b, l = [a, b]
  | [], h => by simp only [List.length_nil] at h; omega
  | [_], h => by simp only [List.length_cons, List.length_nil] at h; omega
  | [a, b], _ => ⟨a, b, rfl⟩
  | _ :: _ :: _ :: t, h => by
    simp only [List.length_cons, List.length_nil] at h
    omega

/-- A string recognized as a bare month number has at most two characters. -/
theorem monthNumCheck_length {cs : List Char} (h : monthNumCheck cs = true) :
    cs.length ≤ 2 := by
  obtain ⟨m, hm, hb⟩ := List.any_eq_true.mp h
  have : m.data = cs := eq_of_beq hb
  subst this
  fin_cases hm <;> decide

/-- C5: date-bucket label formatting. An exact `YYYY-MM-DD` string (digits
in place, month in range) renders as `D Mon`, or `Mon YYYY` when the day
is `01`; a bare month number 1–12 renders as the full month name; an exact
`YYYY-MM` renders as `Mon YYYY`; any string matching none of the date
patterns and longer than `maxLen` is truncated with a trailing ellipsis;
and the claim's three examples evaluate as stated. -/
theorem c5_date_bucket_labels :
    (∀ (y mo da : List Char) (maxLen : Nat),
      y.length = 4 → (∀ c ∈ y, c.isDigit) →
      mo.length = 2 → (∀ c ∈ mo, c.isDigit) →
      1 ≤ digitsVal mo → digitsVal mo ≤ 12 →
      da.length = 2 → (∀ c ∈ da, c.isDigit) →
      truncateLabelS (String.mk (y ++ '-' :: mo ++ '-' :: da)) maxLen =
        (if String.mk da = "01" then
          monthShortName (digitsVal mo) ++ " " ++ String.mk y
        else String.mk da ++ " " ++ monthShortName (digitsVal mo))) ∧
    (∀ (n : Nat) (maxLen : Nat), 1 ≤ n → n ≤ 12 →
      truncateLabelS (toString n) maxLen = fullMonths.getD (n - 1) "") ∧
    (∀ (y mo : List Char) (maxLen : Nat),
      y.length = 4 → (∀ c ∈ y, c.isDigit) →
      mo.length = 2 → (∀ c ∈ mo, c.isDigit) →
      1 ≤ digitsVal mo → digitsVal mo ≤ 12 →
      truncateLabelS (String.mk (y ++ '-' :: mo)) maxLen =
        monthShortName (digitsVal mo) ++ " " ++ String.mk y) ∧
    (∀ (s : String) (maxLen : Nat),
      isoPrefixCheck s.data = false → monthNumCheck s.data = false →
      yearMonthCheck s.data = false → s.length > maxLen →
      truncateLabelS s maxLen = String.mk (s.data.take maxLen) ++ "...") ∧
    truncateLabelS "2024-04-01" 15 = "Apr 2024" ∧
    truncateLabelS "2024-04-15" 15 = "15 Apr" ∧
    truncateLabelS "4" 15 = "April" := by
  refine ⟨?_, ?_, ?_, ?_, rfl, rfl, rfl⟩
  · intro y mo da maxLen hy hyd hmo hmod hm1 hm2 hda hdad
    obtain ⟨y1, y2, y3, y4, rfl⟩ := list_len_four y hy
    obtain ⟨m1, m2, rfl⟩ := list_len_two mo hmo
    obtain ⟨d1, d2, rfl⟩ := list_len_two da hda
    have hy1 := hyd y1 (by simp)
    have hy2 := hyd y2 (by simp)
    have hy3 := hyd y3 (by simp)
    have hy4 := hyd y4 (by simp)
    have hm1' := hmod m1 (by simp)
    have hm2' := hmod m2 (by simp)
    have hd1 := hdad d1 (by simp)
    have hd2 := hdad d2 (by simp)
    simp only [List.cons_append, List.nil_append]
    simp [truncateLabelS, isoPrefixCheck, hy1, hy2, hy3, hy4, hm1', hm2', hd1, hd2]
  · intro n maxLen h1 h2
    interval_cases n <;> rfl
  · intro y mo maxLen hy hyd hmo hmod hm1 hm2
    obtain ⟨y1, y2, y3, y4, rfl⟩ := list_len_four y hy
    obtain ⟨m1, m2, rfl⟩ := list_len_two mo hmo
    have hy1 := hyd y1 (by simp)
    have hy2 := hyd y2 (by simp)
    have hy3 := hyd y3 (by simp)
    have hy4 := hyd y4 (by simp)
    have hm1' := hmod m1 (by simp)
    have hm2' := hmod m2 (by simp)
    have hmn : monthNumCheck [y1, y2, y3, y4, '-', m1, m2] = false := by
      by_contra hc
      have := monthNumCheck_length (Bool.of_not_eq_false hc)
      simp at this
    simp only [List.cons_append, List.nil_append]
    simp [truncateLabelS, isoPrefixCheck, yearMonthCheck, hmn,
      hy1, hy2, hy3, hy4, hm1', hm2']
  · intro s maxLen h1 h2 h3 h4
    have hlen : s.data.length > maxLen := h4
    simp [truncateLabelS, h1, h2, h3, hlen]
    intro hc
    exact absurd h4 (by omega)

/-- Witness for C5 (the hypothesised clauses applied at the claim's
examples). -/
theorem c5_date_bucket_labels_witness :
    truncateLabelS (String.mk (['2', '0', '2', '4'] ++ '-' :: ['0', '4'] ++
        '-' :: ['1', '5'])) 15 =
      (if String.mk ['1', '5'] = "01" then
        monthShortName (digitsVal ['0', '4']) ++ " " ++ String.mk ['2', '0', '2', '4']
      else String.mk ['1', '5'] ++ " " ++ monthShortName (digitsVal ['0', '4'])) ∧
    truncateLabelS (toString (4 : Nat)) 15 = fullMonths.getD 3 "" ∧
    truncateLabelS "a-very-long-category-name" 15 =
      String.mk ("a-very-long-category-name".data.take 15) ++ "..." :=
  ⟨c5_date_bucket_labels.1 ['2', '0', '2', '4'] ['0', '4'] ['1', '5'] 15
      (by decide) (by decide) (by decide) (by decide) (by decide) (by decide)
      (by decide) (by decide),
   c5_date_bucket_labels.2.1 4 15 (by decide) (by decide),
   c5_date_bucket_labels.2.2.2.1 "a-very-long-category-name" 15
      (by decide) (by decide) (by decide) (by decide)⟩

/-- A token payload carries no error field. -/
theorem tokenObj_error (c : String) : truthy (jsField (tokenObj c) "error") = false := rfl

/-- A token payload is not metadata. -/
theorem tokenObj_isMeta (c : String) : typeIs (tokenObj c) "metadata" = false := rfl

/-- A token payload is a token. -/
theorem tokenObj_isTok (c : String) : typeIs (tokenObj c) "token" = true := rfl

/-- A token payload is not done. -/
theorem tokenObj_isDone (c : String) : typeIs (tokenObj c) "done" = false := rfl

/-- The content of a token payload. -/
theorem tokenObj_content (c : String) :
    jsToString (jsField (tokenObj c) "content") = c := rfl

/-- A done payload carries no error field. -/
theorem doneObj_error : truthy (jsField doneObj "error") = false := rfl

/-- A done payload is not metadata. -/
theorem doneObj_isMeta : typeIs doneObj "metadata" = false := rfl

/-- A done payload is not a token. -/
theorem doneObj_isTok : typeIs doneObj "token" = false := rfl

/-- A done payload is done. -/
theorem doneObj_isDone : typeIs doneObj "done" = true := rfl

/-- The error field of an error payload. -/
theorem errorObj_msg (msg : String) :
    jsToString (jsField (errorObj msg) "error") = msg := rfl

/-- A halted session (the handler returned) ignores any payload. -/
theorem stepData_halted (s : SessionState) (d : JVal) (h : s.halted = true) :
    stepData s d = s := by
  simp [stepData, h]

/-- A halted session ignores every remaining payload. -/
theorem runSession_halted (s : SessionState) (evs : List JVal)
    (h : s.halted = true) : runSession s evs = s := by
  induction evs with
  | nil => rfl
  | cons e es ih =>
    show runSession (stepData s e) es = s
    rw [stepData_halted s e h]
    exact ih

/-- Shape of one token step: ignored while halted or before metadata;
otherwise the content is appended and, when the answer paragraph exists,
re-rendered with the in-progress cursor. -/
theorem stepData_token (s : SessionState) (c : String) :
    stepData s (tokenObj c) =
      if s.halted = true then s
      else if s.metadataReceived = true then
        match s.answerBubble with
        | some _ =>
          { s with streamedAnswer := s.streamedAnswer ++ c,
                   answerBubble :=
                     some (formatAnswerQ (s.streamedAnswer ++ c) ++ cursorSpan) }
        | none => { s with streamedAnswer := s.streamedAnswer ++ c }
      else s := by
  by_cases h : s.halted
  · simp [stepData, h]
  · by_cases hm : s.metadataReceived
    · cases hb : s.answerBubble with
      | some b =>
        simp [stepData, h, hm, hb, tokenObj_error, tokenObj_isMeta,
          tokenObj_isTok, tokenObj_isDone, tokenObj_content]
      | none =>
        simp [stepData, h, hm, hb, tokenObj_error, tokenObj_isMeta,
          tokenObj_isTok, tokenObj_isDone, tokenObj_content]
    · simp [stepData, h, hm, tokenObj_error, tokenObj_isMeta,
        tokenObj_isTok, tokenObj_isDone]

/-- Shape of one done step: it does not halt the session; it re-renders the
answer without the cursor and refreshes the chat history when the answer
paragraph exists (otherwise the null access throws and is swallowed). -/
theorem stepData_done (s : SessionState) :
    stepData s doneObj =
      if s.halted = true then s
      else
        match s.answerBubble with
        | some _ =>
          { s with answerBubble := some (formatAnswerQ s.streamedAnswer),
                   historyReloads := s.historyReloads + 1 }
        | none => s := by
  by_cases h : s.halted
  · simp [stepData, h]
  · cases hb : s.answerBubble with
    | some b =>
      simp [stepData, h, hb, doneObj_error, doneObj_isMeta, doneObj_isTok,
        doneObj_isDone]
    | none =>
      simp [stepData, h, hb, doneObj_error, doneObj_isMeta, doneObj_isTok,
        doneObj_isDone]

/-- Shape of one service-error step (non-empty message): the handler
returns, hides the loading state, re-enables the button, and appends one
error message element. -/
theorem stepData_error (s : SessionState) (msg : String) (hm : msg ≠ "") :
    stepData s (errorObj msg) =
      if s.halted = true then s
      else
        { s with halted := true, loadingShown := false, askBtnDisabled := false,
                 errorMessages := s.errorMessages ++ [errorSpanHtml msg] } := by
  have ht : truthy (jsField (errorObj msg) "error") = true := by
    show (!msg.isEmpty) = true
    simp only [Bool.not_eq_true']
    exact Bool.eq_false_iff.mpr (fun hc => hm ((String.isEmpty_iff msg).mp hc))
  by_cases h : s.halted
  · simp [stepData, h]
  · simp [stepData, h, ht, errorObj_msg]

/-- Concatenating with a cons at join level. -/
theorem string_foldl_append (a : String) (ts : List String) :
    ts.foldl (· ++ ·) a = a ++ ts.foldl (· ++ ·) "" := by
  induction ts generalizing a with
  | nil => simp
  | cons t ts ih =>
    show ts.foldl (· ++ ·) (a ++ t) = a ++ ts.foldl (· ++ ·) ("" ++ t)
    rw [ih (a ++ t), ih ("" ++ t)]
    simp [String.append_assoc]

/-- `String.join` unfolds on a cons. -/
theorem string_join_cons (t : String) (ts : List String) :
    String.join (t :: ts) = t ++ String.join ts := by
  show (t :: ts).foldl (· ++ ·) "" = t ++ ts.foldl (· ++ ·) ""
  rw [List.foldl_cons, string_foldl_append]
  simp

/-- C3 is refuted by a token arriving after done: the accumulated answer
changes from empty to the token's text and the answer paragraph is
re-rendered with the streaming cursor — the finished session is
reanimated. -/
theorem c3_late_token_counterexample :
    (runSession initialSession [metadataObj, doneObj]).streamedAnswer = "" ∧
    (runSession initialSession [metadataObj, doneObj]).answerBubble = some "" ∧
    (runSession initialSession [metadataObj, doneObj, tokenObj "X"]).streamedAnswer = "X" ∧
    (runSession initialSession [metadataObj, doneObj, tokenObj "X"]).answerBubble =
      some (formatAnswerQ "X" ++ cursorSpan) ∧
    (runSession initialSession [metadataObj, doneObj]).streamedAnswer ≠
      (runSession initialSession [metadataObj, doneObj, tokenObj "X"]).streamedAnswer :=
  ⟨rfl, rfl, rfl, rfl, by decide⟩

/-- C3 (amended): a service-reported Error event really terminates the
session — the handler returns, so every later event is a no-op — but a
Done event does not: the code sets no flag on `done`, so a Token arriving
after Done is still appended to the accumulated answer and re-renders the
sink with the cursor. -/
theorem c3_termination_amended :
    (∀ (s : SessionState) (d : JVal), truthy (jsField d "error") = true →
      s.halted = false → (stepData s d).halted = true) ∧
    (∀ (s : SessionState) (evs : List JVal), s.halted = true →
      runSession s evs = s) ∧
    (∀ (s : SessionState) (t : String) (b : String), s.halted = false →
      s.metadataReceived = true → s.answerBubble = some b →
      (stepData (stepData s doneObj) (tokenObj t)).streamedAnswer =
        s.streamedAnswer ++ t ∧
      (stepData (stepData s doneObj) (tokenObj t)).answerBubble =
        some (formatAnswerQ (s.streamedAnswer ++ t) ++ cursorSpan)) := by
  refine ⟨?_, runSession_halted, ?_⟩
  · intro s d he h
    simp [stepData, h, he]
  · intro s t b h hm hb
    have hd := stepData_done s
    rw [if_neg (by simp [h]), hb] at hd
    rw [hd, stepData_token]
    simp [h, hm]

/-- Witness for the amended C3 at a finished concrete session. -/
theorem c3_termination_amended_witness :
    (stepData initialSession (errorObj "boom")).halted = true ∧
    runSession (stepData initialSession (errorObj "boom")) [tokenObj "A"] =
      stepData initialSession (errorObj "boom") ∧
    (stepData (stepData (stepData initialSession metadataObj) doneObj)
        (tokenObj "X")).streamedAnswer =
      (stepData initialSession metadataObj).streamedAnswer ++ "X" :=
  ⟨c3_termination_amended.1 initialSession (errorObj "boom") (by decide) rfl,
   c3_termination_amended.2.1 (stepData initialSession (errorObj "boom"))
     [tokenObj "A"]
     (c3_termination_amended.1 initialSession (errorObj "boom") (by decide) rfl),
   (c3_termination_amended.2.2 (stepData initialSession metadataObj) "X" ""
     rfl rfl rfl).1⟩

/-- C7: a token arriving before any metadata leaves the session state
completely unchanged; once metadata has arrived, processing tokens
`t1..tn` appends exactly their concatenation in arrival order; feeding
`A`, `B`, `C` yields the displayed text `ABC`. -/
theorem c7_token_accumulation :
    (∀ (s : SessionState) (c : String), s.metadataReceived = false →
      stepData s (tokenObj c) = s) ∧
    (∀ (s : SessionState) (ts : List String), s.halted = false →
      s.metadataReceived = true →
      (runSession s (ts.map tokenObj)).streamedAnswer =
        s.streamedAnswer ++ String.join ts) ∧
    (runSession initialSession
        [metadataObj, tokenObj "A", tokenObj "B", tokenObj "C"]).streamedAnswer =
      "ABC" ∧
    (runSession initialSession
        [metadataObj, tokenObj "A", tokenObj "B", tokenObj "C"]).answerBubble =
      some (formatAnswerQ "ABC" ++ cursorSpan) := by
  refine ⟨?_, ?_, rfl, rfl⟩
  · intro s c hm
    rw [stepData_token]
    by_cases h : s.halted <;> simp [h, hm]
  · intro s ts
    induction ts generalizing s with
    | nil =>
      intro h1 h2
      show s.streamedAnswer = s.streamedAnswer ++ String.join []
      simp [String.join]
    | cons t ts ih =>
      intro h1 h2
      show (runSession (stepData s (tokenObj t)) (ts.map tokenObj)).streamedAnswer = _
      have hstep := stepData_token s t
      rw [if_neg (by simp [h1]), if_pos h2] at hstep
      rw [string_join_cons, ← String.append_assoc]
      cases hb : s.answerBubble with
      | some b =>
        rw [hb] at hstep
        rw [hstep]
        exact ih _ h1 h2
      | none =>
        rw [hb] at hstep
        rw [hstep]
        exact ih _ h1 h2

/-- Witness for C7's accumulation clause right after metadata arrived. -/
theorem c7_token_accumulation_witness :
    (runSession (stepData initialSession metadataObj)
        (["A", "B", "C"].map tokenObj)).streamedAnswer =
      (stepData initialSession metadataObj).streamedAnswer ++
        String.join ["A", "B", "C"] :=
  c7_token_accumulation.2.1 (stepData initialSession metadataObj)
    ["A", "B", "C"] rfl rfl

/-- C9: a service-reported error while still awaiting metadata halts the
session, leaves no answer paragraph (none was created), appends exactly
one inline error element carrying the message, hides the loading state,
re-enables submission, and makes every later event a no-op. -/
theorem c9_error_before_metadata :
    ∀ (s : SessionState) (msg : String) (evs : List JVal),
      s.halted = false → s.metadataReceived = false → s.answerBubble = none →
      msg ≠ "" →
      (stepData s (errorObj msg)).halted = true ∧
      (stepData s (errorObj msg)).answerBubble = none ∧
      (stepData s (errorObj msg)).errorMessages =
        s.errorMessages ++ [errorSpanHtml msg] ∧
      (stepData s (errorObj msg)).loadingShown = false ∧
      (stepData s (errorObj msg)).askBtnDisabled = false ∧
      (stepData s (errorObj msg)).streamedAnswer = s.streamedAnswer ∧
      runSession (stepData s (errorObj msg)) evs = stepData s (errorObj msg) ∧
      (s.errorMessages = [] →
        (stepData s (errorObj msg)).errorMessages = [errorSpanHtml msg]) := by
  intro s msg evs h1 h2 h3 h4
  have hstep := stepData_error s msg h4
  rw [if_neg (by simp [h1])] at hstep
  refine ⟨by rw [hstep], by rw [hstep]; exact h3, by rw [hstep], by rw [hstep],
    by rw [hstep], by rw [hstep], ?_, ?_⟩
  · exact runSession_halted _ evs (by rw [hstep])
  · intro he
    rw [hstep]
    simp [he]

/-- Witness for C9 from the initial session state. -/
theorem c9_error_before_metadata_witness :
    (stepData initialSession (errorObj "Query failed")).halted = true ∧
    (stepData initialSession (errorObj "Query failed")).answerBubble = none ∧
    (stepData initialSession (errorObj "Query failed")).errorMessages =
      initialSession.errorMessages ++ [errorSpanHtml "Query failed"] ∧
    (stepData initialSession (errorObj "Query failed")).loadingShown = false ∧
    (stepData initialSession (errorObj "Query failed")).askBtnDisabled = false ∧
    (stepData initialSession (errorObj "Query failed")).streamedAnswer =
      initialSession.streamedAnswer ∧
    runSession (stepData initialSession (errorObj "Query failed")) [tokenObj "A"] =
      stepData initialSession (errorObj "Query failed") ∧
    (initialSession.errorMessages = [] →
      (stepData initialSession (errorObj "Query failed")).errorMessages =
        [errorSpanHtml "Query failed"]) :=
  c9_error_before_metadata initialSession "Query failed" [tokenObj "A"]
    rfl rfl rfl (by decide)

/-- Unfolding of `splitSeq` on a cons cell. -/
theorem splitSeq_cons (d0 : Char) (ds : List Char) (c : Char) (rest : List Char) :
    splitSeq d0 ds (c :: rest) =
      if c = d0 ∧ ds.isPrefixOf rest then
        [] :: splitSeq d0 ds (rest.drop ds.length)
      else
        match splitSeq d0 ds rest with
        | [] => [[c]]
        | h :: t => (c :: h) :: t := by
  simp only [splitSeq]

/-- A split never produces the empty list of segments. -/
theorem splitSeq_ne_nil (d0 : Char) (ds : List Char) :
    ∀ l : List Char, splitSeq d0 ds l ≠ []
  | [] => by simp [splitSeq]
  | c :: rest => by
    rw [splitSeq_cons]
    split
    · simp
    · split <;> simp

/-- A string shorter than the delimiter tail cannot contain a match. -/
theorem splitSeq_short (d0 : Char) (ds : List Char) :
    ∀ l : List Char, l.length ≤ ds.length → splitSeq d0 ds l = [l]
  | [], _ => by simp [splitSeq]
  | c :: rest, h => by
    have hlen : rest.length + 1 ≤ ds.length := by
      simpa using h
    have hnc : ¬(c = d0 ∧ ds.isPrefixOf rest) := by
      rintro ⟨-, hp⟩
      have := (List.isPrefixOf_iff_prefix.mp hp).length_le
      omega
    have hr : splitSeq d0 ds rest = [rest] :=
      splitSeq_short d0 ds rest (by omega)
    rw [splitSeq_cons, if_neg hnc, hr]

/-- A split with a single segment returns the input unchanged. -/
theorem splitSeq_single (d0 : Char) (ds : List Char) :
    ∀ (l z : List Char), splitSeq d0 ds l = [z] → z = l
  | [], z, h => by
    simp [splitSeq] at h
    exact h
  | c :: rest, z, h => by
    rw [splitSeq_cons] at h
    split at h
    · have := splitSeq_ne_nil d0 ds (rest.drop ds.length)
      simp at h
      exact absurd h.2 this
    · split at h
      · rename_i heq
        exact absurd heq (splitSeq_ne_nil d0 ds rest)
      · rename_i h' t' heq
        simp at h
        obtain ⟨hz, ht⟩ := h
        have : h' = rest := splitSeq_single d0 ds rest h' (by rw [heq, ht])
        rw [← hz, this]

/-- The first segment of a split is a prefix of the input. -/
theorem splitSeq_head_pre (d0 : Char) (ds : List Char) :
    ∀ (z h : List Char) (t : List (List Char)),
      splitSeq d0 ds z = h :: t → h <+: z
  | [], h, t, e => by
    simp [splitSeq] at e
    obtain ⟨rfl, -⟩ := e
    exact List.nil_prefix
  | c :: rest, h, t, e => by
    rw [splitSeq_cons] at e
    split at e
    · simp at e
      obtain ⟨rfl, -⟩ := e
      exact List.nil_prefix
    · split at e
      · rename_i heq
        exact absurd heq (splitSeq_ne_nil d0 ds rest)
      · rename_i h' t' heq
        have hp := splitSeq_head_pre d0 ds rest h' t' heq
        simp at e
        obtain ⟨rfl, -⟩ := e
        exact List.cons_prefix_cons.mpr ⟨rfl, hp⟩

/-- The default value of `getLastD` is irrelevant on a nonempty list. -/
theorem getLastD_irrel {α : Type} :
    ∀ (l : List α), l ≠ [] → ∀ d e : α, l.getLastD d = l.getLastD e
  | [], h, _, _ => absurd rfl h
  | _ :: _, _, _, _ => by rw [List.getLastD_cons, List.getLastD_cons]

/-- `getLastD` of an append with a nonempty right part. -/
theorem getLastD_append {α : Type} :
    ∀ (A B : List α) (d : α), B ≠ [] → (A ++ B).getLastD d = B.getLastD d
  | [], B, d, _ => by simp
  | a :: A, B, d, hB => by
    rw [List.cons_append, List.getLastD_cons, getLastD_append A B a hB,
      getLastD_irrel B hB a d]

/-- The last segment (with default) of a nonempty list is a member. -/
theorem getLastD_mem {α : Type} :
    ∀ (l : List α) (d : α), l ≠ [] → l.getLastD d ∈ l
  | [a], d, _ => by
    rw [List.getLastD_cons, List.getLastD_nil]
    exact List.mem_cons_self a []
  | a :: b :: t, d, _ => by
    rw [List.getLastD_cons]
    exact List.mem_cons_of_mem a (getLastD_mem (b :: t) a (by simp))

/-- Key factorization: splitting `x ++ y` equals the completed segments of
`x` followed by the split of the carry-over (the last segment of `x`)
prefixed to `y`. This is exactly the correctness of retaining
`lines.pop()` as carry-over. -/
theorem splitSeq_append (d0 : Char) (ds : List Char) :
    ∀ (n : Nat) (x y : List Char), x.length ≤ n →
      splitSeq d0 ds (x ++ y) =
        (splitSeq d0 ds x).dropLast ++
          splitSeq d0 ds ((splitSeq d0 ds x).getLastD [] ++ y) := by
  intro n
  induction n with
  | zero =>
    intro x y hx
    have : x = [] := List.eq_nil_of_length_eq_zero (Nat.le_zero.mp hx)
    subst this
    simp [splitSeq]
  | succ n ih =>
    intro x y hx
    match x with
    | [] => simp [splitSeq]
    | c :: rest =>
      have hrest : rest.length ≤ n := by
        simpa using hx
      by_cases hc : (c = d0 ∧ ds.isPrefixOf rest)
      · have hcxy : (c = d0 ∧ ds.isPrefixOf (rest ++ y)) :=
          ⟨hc.1, List.isPrefixOf_iff_prefix.mpr
            ((List.isPrefixOf_iff_prefix.mp hc.2).trans (List.prefix_append rest y))⟩
        have hdle : ds.length ≤ rest.length :=
          (List.isPrefixOf_iff_prefix.mp hc.2).length_le
        have hdrop : (rest ++ y).drop ds.length = rest.drop ds.length ++ y :=
          List.drop_append_of_le_length hdle
        have e1 : splitSeq d0 ds ((c :: rest) ++ y) =
            [] :: splitSeq d0 ds (rest.drop ds.length ++ y) := by
          rw [List.cons_append, splitSeq_cons, if_pos hcxy, hdrop]
        have e2 : splitSeq d0 ds (c :: rest) =
            [] :: splitSeq d0 ds (rest.drop ds.length) := by
          rw [splitSeq_cons, if_pos hc]
        have hne := splitSeq_ne_nil d0 ds (rest.drop ds.length)
        rw [e1, e2, List.dropLast_cons_of_ne_nil hne, List.getLastD_cons,
          getLastD_irrel _ hne [] ([] : List Char)]
        rw [ih (rest.drop ds.length) y (by simp [List.length_drop]; omega)]
        simp
      · rcases heq : splitSeq d0 ds rest with _ | ⟨h, t⟩
        · exact absurd heq (splitSeq_ne_nil d0 ds rest)
        rcases t with _ | ⟨t0, ts⟩
        · have hrw : h = rest := splitSeq_single d0 ds rest h heq
          subst hrw
          have e2 : splitSeq d0 ds (c :: h) = [c :: h] := by
            rw [splitSeq_cons, if_neg hc, heq]
          rw [e2]
          simp
        · have hcxy : ¬(c = d0 ∧ ds.isPrefixOf (rest ++ y)) := by
            rintro ⟨he, hp⟩
            have hnp : ¬ ds.isPrefixOf rest = true := fun hpre => hc ⟨he, hpre⟩
            have hlen : rest.length < ds.length := by
              by_contra hge
              push_neg at hge
              apply hnp
              have hdp := List.isPrefixOf_iff_prefix.mp hp
              have htake : ds = (rest ++ y).take ds.length :=
                List.prefix_iff_eq_take.mp hdp
              rw [List.take_append_of_le_length hge] at htake
              exact List.isPrefixOf_iff_prefix.mpr
                (htake ▸ List.take_prefix ds.length rest)
            have hshort := splitSeq_short d0 ds rest (le_of_lt hlen)
            rw [heq] at hshort
            simp at hshort
          have hIH := ih rest y hrest
          rw [heq] at hIH
          have hSY : splitSeq d0 ds (rest ++ y) =
              h :: ((t0 :: ts).dropLast ++
                splitSeq d0 ds ((t0 :: ts).getLastD h ++ y)) := by
            rw [hIH]
            rw [List.dropLast_cons₂, List.getLastD_cons, List.cons_append]
          have e1 : splitSeq d0 ds ((c :: rest) ++ y) =
              (c :: h) :: ((t0 :: ts).dropLast ++
                splitSeq d0 ds ((t0 :: ts).getLastD h ++ y)) := by
            rw [List.cons_append, splitSeq_cons, if_neg hcxy, hSY]
          have e2 : splitSeq d0 ds (c :: rest) = (c :: h) :: t0 :: ts := by
            rw [splitSeq_cons, if_neg hc, heq]
          rw [e1, e2]
          simp [List.getLastD_cons]
          cases hgl : (t0 :: ts).getLast? with
          | none => simp at hgl
          | some v => rfl

/-- Every produced segment is itself match-free: splitting it again is the
identity. Fuel-based strong induction on the input length. -/
theorem splitSeq_mem_single (d0 : Char) (ds : List Char) :
    ∀ (n : Nat) (z l : List Char), z.length ≤ n → l ∈ splitSeq d0 ds z →
      splitSeq d0 ds l = [l] := by
  intro n
  induction n with
  | zero =>
    intro z l hz hm
    have : z = [] := List.eq_nil_of_length_eq_zero (Nat.le_zero.mp hz)
    subst this
    simp [splitSeq] at hm
    subst hm
    simp [splitSeq]
  | succ n ih =>
    intro z l hz hm
    match z with
    | [] =>
      simp [splitSeq] at hm
      subst hm
      simp [splitSeq]
    | c :: rest =>
      have hrest : rest.length ≤ n := by simpa using hz
      rw [splitSeq_cons] at hm
      by_cases hc : (c = d0 ∧ ds.isPrefixOf rest)
      · rw [if_pos hc] at hm
        rcases List.mem_cons.mp hm with h | h
        · subst h; simp [splitSeq]
        · exact ih (rest.drop ds.length) l
            (by simp [List.length_drop]; omega) h
      · rw [if_neg hc] at hm
        rcases heq : splitSeq d0 ds rest with _ | ⟨h', t'⟩
        · exact absurd heq (splitSeq_ne_nil d0 ds rest)
        rw [heq] at hm
        rcases List.mem_cons.mp hm with h | h
        · subst h
          have hsing : splitSeq d0 ds h' = [h'] :=
            ih rest h' hrest (by rw [heq]; exact List.mem_cons_self _ _)
          have hpre : h' <+: rest := splitSeq_head_pre d0 ds rest h' t' heq
          have hnc : ¬(c = d0 ∧ ds.isPrefixOf h') := by
            rintro ⟨he, hp⟩
            exact hc ⟨he, List.isPrefixOf_iff_prefix.mpr
              ((List.isPrefixOf_iff_prefix.mp hp).trans hpre)⟩
          rw [splitSeq_cons, if_neg hnc, hsing]
        · exact ih rest l hrest (by rw [heq]; exact List.mem_cons_of_mem _ h)

/-- The incremental decoder is a stream homomorphism: decoding a
concatenation equals decoding the parts in sequence. -/
theorem decodeChunk_append (st : DecState) (a b : List Nat) :
    decodeChunk st (a ++ b) =
      ((decodeChunk (decodeChunk st a).1 b).1,
       (decodeChunk st a).2 ++ (decodeChunk (decodeChunk st a).1 b).2) := by
  induction a generalizing st with
  | nil => simp [decodeChunk]
  | cons x xs ih =>
    simp only [List.cons_append, decodeChunk, List.append_eq]
    rw [ih]
    simp [List.append_assoc]

/-- One loop iteration over a concatenated chunk equals two iterations
over the parts: the carry-over buffer transports exactly the missing
text. -/
theorem feedChunk_append (d0 : Char) (ds : List Char) (s : RStream)
    (a b : List Nat) :
    feedChunk d0 ds s (a ++ b) =
      ((feedChunk d0 ds (feedChunk d0 ds s a).1 b).1,
       (feedChunk d0 ds s a).2 ++ (feedChunk d0 ds (feedChunk d0 ds s a).1 b).2) := by
  have hdec := decodeChunk_append s.dec a b
  have h1 : s.buffer ++ ((decodeChunk s.dec a).2 ++ (decodeChunk (decodeChunk s.dec a).1 b).2) =
      (s.buffer ++ (decodeChunk s.dec a).2) ++ (decodeChunk (decodeChunk s.dec a).1 b).2 :=
    (List.append_assoc _ _ _).symm
  have hsp := splitSeq_append d0 ds (s.buffer ++ (decodeChunk s.dec a).2).length
    (s.buffer ++ (decodeChunk s.dec a).2) (decodeChunk (decodeChunk s.dec a).1 b).2 le_rfl
  have hne := splitSeq_ne_nil d0 ds
    ((splitSeq d0 ds (s.buffer ++ (decodeChunk s.dec a).2)).getLastD [] ++
      (decodeChunk (decodeChunk s.dec a).1 b).2)
  have hdl := List.dropLast_append_of_ne_nil
    ((splitSeq d0 ds (s.buffer ++ (decodeChunk s.dec a).2)).dropLast) hne
  have hgl := getLastD_append
    ((splitSeq d0 ds (s.buffer ++ (decodeChunk s.dec a).2)).dropLast) _ ([] : List Char) hne
  simp only [feedChunk, hdec, h1, hsp, hdl, hgl, List.filterMap_append]

/-- Feeding chunks one at a time equals feeding their concatenation, for
any reassembler state whose buffer is free of delimiter matches (which the
loop maintains). -/
theorem feedMany_flatten (d0 : Char) (ds : List Char) :
    ∀ (cs : List (List Nat)) (s : RStream),
      splitSeq d0 ds s.buffer = [s.buffer] →
      feedMany d0 ds s cs = feedChunk d0 ds s cs.flatten
  | [], s, hinv => by
    show (s, []) = feedChunk d0 ds s [].flatten
    simp only [List.flatten_nil, feedChunk, decodeChunk, List.append_nil, hinv,
      List.getLastD_cons, List.getLastD_nil, List.dropLast_single,
      List.filterMap_nil]
  | c :: cs, s, hinv => by
    have hne := splitSeq_ne_nil d0 ds (s.buffer ++ (decodeChunk s.dec c).2)
    have hinv' : splitSeq d0 ds (feedChunk d0 ds s c).1.buffer =
        [(feedChunk d0 ds s c).1.buffer] := by
      have hmem := getLastD_mem
        (splitSeq d0 ds (s.buffer ++ (decodeChunk s.dec c).2)) [] hne
      exact splitSeq_mem_single d0 ds
        (s.buffer ++ (decodeChunk s.dec c).2).length _ _ le_rfl hmem
    have IH := feedMany_flatten d0 ds cs (feedChunk d0 ds s c).1 hinv'
    show ((feedMany d0 ds (feedChunk d0 ds s c).1 cs).1,
        (feedChunk d0 ds s c).2 ++ (feedMany d0 ds (feedChunk d0 ds s c).1 cs).2) =
      feedChunk d0 ds s (c :: cs).flatten
    rw [IH, List.flatten_cons, feedChunk_append]

/-- C1: for every delimiter configuration and every way of splitting the
raw byte stream into an ordered sequence of chunks — including splits in
the middle of a multi-byte character or of a JSON token — feeding the
chunks one at a time through the stream-reading loop produces exactly the
same ordered sequence of decoded events (and the same final state) as
feeding the whole stream in one call; and on each call the last segment
after splitting on the delimiter is retained as the carry-over buffer,
with only the preceding complete segments being parsed. -/
theorem c1_chunk_reassembly_refinement :
    (∀ (d0 : Char) (ds : List Char) (chunks : List (List Nat)),
      feedMany d0 ds initRStream chunks =
        feedChunk d0 ds initRStream chunks.flatten) ∧
    (∀ (d0 : Char) (ds : List Char) (s : RStream) (chunk : List Nat),
      (feedChunk d0 ds s chunk).1.buffer =
        (splitSeq d0 ds (s.buffer ++ (decodeChunk s.dec chunk).2)).getLastD [] ∧
      (feedChunk d0 ds s chunk).2 =
        ((splitSeq d0 ds (s.buffer ++
          (decodeChunk s.dec chunk).2)).dropLast).filterMap parseEventLine) :=
  ⟨fun d0 ds chunks =>
    feedMany_flatten d0 ds chunks initRStream (by simp [initRStream, splitSeq]),
   fun _ _ _ _ => ⟨rfl, rfl⟩⟩

end KB
